import Mathlib

/-!
Shallow embedding of the diff/change normalization pipeline of the
Gitlab/BitbucketServer platform layer (src/source/platforms/gitlab/GitlabGit.ts
and the GitlabAPI client), together with theorems settling the frozen claims
about it.

JavaScript conventions are embedded as follows: machine `number` timestamps are
`Nat` (epoch milliseconds are non-negative here); `undefined`/`null` fields are
`Option`; a thrown `Error` is the `Except.error` branch carrying the message
string; `Array.prototype.reduce` with a possibly-throwing callback is a
left fold in the `Except` monad, aborting at the first throw.
-/

/-- A platform path object; the source only ever reads its `toString` field
(`value.path.toString`, `diff.source.toString`). -/
structure GitlabPath where
  toString : String
  deriving Repr, DecidableEq

/-- The `type` tag of a platform change record. The four tags the source's
`switch` handles are explicit constructors; any other tag string (for example
"RENAME") is `other`, landing in the `default` branch. -/
inductive ChangeType where
  | ADD
  | MODIFY
  | MOVE
  | DELETE
  | other (tag : String)
  deriving Repr, DecidableEq

/-- A platform change record (`GitlabChangesValue`). `srcPath` is read by the
source only in the MOVE branch. -/
structure GitlabChangesValue where
  type : ChangeType
  path : GitlabPath
  srcPath : GitlabPath
  deriving Repr, DecidableEq

/-- Canonical commit author/committer block (`GitCommit["author"]`). -/
structure GitCommitAuthor where
  email : String
  name : String
  date : String
  deriving Repr, DecidableEq

/-- Canonical commit (`GitCommit`). `tree` is always `null` for this platform,
embedded as `Option String` that the normalizer sets to `none`. -/
structure GitCommit where
  sha : String
  parents : List String
  author : GitCommitAuthor
  committer : GitCommitAuthor
  message : String
  tree : Option String
  url : String
  deriving Repr, DecidableEq

/-- The JSON-level git DSL produced by the change-list normalizer
(`GitJSONDSL`). -/
structure GitJSONDSL where
  modified_files : List String
  created_files : List String
  deleted_files : List String
  commits : List GitCommit
  deriving Repr, DecidableEq

/-- The body of `changes.reduce(...)` in `bitBucketServerChangesToGitJSONDSL`:
a left fold over the records in the `Except` monad; the `default` branch of the
`switch` throws `new Error("Unhandled change type")`, aborting the fold. -/
def bitBucketServerChangesToGitJSONDSLGo :
    GitJSONDSL → List GitlabChangesValue → Except String GitJSONDSL
  | git, [] => Except.ok git
  | git, value :: rest =>
    match value.type with
    | ChangeType.ADD =>
      bitBucketServerChangesToGitJSONDSLGo
        { git with created_files := git.created_files ++ [value.path.toString] } rest
    | ChangeType.MODIFY =>
      bitBucketServerChangesToGitJSONDSLGo
        { git with modified_files := git.modified_files ++ [value.path.toString] } rest
    | ChangeType.MOVE =>
      bitBucketServerChangesToGitJSONDSLGo
        { git with created_files := git.created_files ++ [value.path.toString],
                   deleted_files := git.deleted_files ++ [value.srcPath.toString] } rest
    | ChangeType.DELETE =>
      bitBucketServerChangesToGitJSONDSLGo
        { git with deleted_files := git.deleted_files ++ [value.path.toString] } rest
    | ChangeType.other _ => Except.error "Unhandled change type"

/-- `bitBucketServerChangesToGitJSONDSL(changes, commits)`: reduce over
`changes` starting from the accumulator with three empty lists and the commit
list attached as-is. -/
def bitBucketServerChangesToGitJSONDSL (changes : List GitlabChangesValue)
    (commits : List GitCommit) : Except String GitJSONDSL :=
  bitBucketServerChangesToGitJSONDSLGo
    { modified_files := [], created_files := [], deleted_files := [], commits := commits }
    changes

/-- A change type the source's `switch` handles without throwing. -/
def knownChangeType : ChangeType → Bool
  | ChangeType.ADD | ChangeType.MODIFY | ChangeType.MOVE | ChangeType.DELETE => true
  | ChangeType.other _ => false

/-- The contribution of one record to `created_files`. -/
def createdContribution (v : GitlabChangesValue) : List String :=
  match v.type with
  | ChangeType.ADD => [v.path.toString]
  | ChangeType.MOVE => [v.path.toString]
  | _ => []

/-- The contribution of one record to `modified_files`. -/
def modifiedContribution (v : GitlabChangesValue) : List String :=
  match v.type with
  | ChangeType.MODIFY => [v.path.toString]
  | _ => []

/-- The contribution of one record to `deleted_files`. -/
def deletedContribution (v : GitlabChangesValue) : List String :=
  match v.type with
  | ChangeType.DELETE => [v.path.toString]
  | ChangeType.MOVE => [v.srcPath.toString]
  | _ => []

/-- In-order concatenation of per-record contributions. -/
def contributions (f : GitlabChangesValue → List String) :
    List GitlabChangesValue → List String
  | [] => []
  | v :: rest => f v ++ contributions f rest

def moveWitnessRecord : GitlabChangesValue := ⟨ChangeType.MOVE, ⟨"new"⟩, ⟨"old"⟩⟩

def moveWitnessChanges : List GitlabChangesValue :=
  [moveWitnessRecord, ⟨ChangeType.MODIFY, ⟨"m"⟩, ⟨""⟩⟩]

def moveWitnessGit : GitJSONDSL := ⟨["m"], ["new"], ["old"], []⟩

/-- One page of the paginated `changes` endpoint (`GitlabChanges`):
`nextPageStart = none` embeds the terminating `null`. -/
structure GitlabChanges where
  values : List GitlabChangesValue
  nextPageStart : Option Nat
  deriving Repr, DecidableEq

/-- The body of the `do ... while (nextPageStart !== null)` loop of
`getPullRequestChanges`, run against the interaction trace: `pages` lists the
successful responses the server returns to the successive requests, in order.
Each iteration records the cursor it requests (`requests`), appends the page's
`values` to the accumulator, and either stops (`nextPageStart` null) or
continues with the new cursor. Running out of responses before a terminating
page is the `none` outcome (the trace does not cover the run). -/
def getPullRequestChangesGo :
    List GitlabChanges → List GitlabChangesValue → Nat → List Nat →
      Option (List GitlabChangesValue × List Nat)
  | [], _, _, _ => none
  | page :: restPages, values, cursor, requests =>
    let requests' := requests ++ [cursor]
    let values' := values ++ page.values
    match page.nextPageStart with
    | none => some (values', requests')
    | some n => getPullRequestChangesGo restPages values' n requests'

/-- `getPullRequestChanges` against a response trace: cursor starts at 0, the
accumulator starts empty, no requests issued yet. The result pairs the
accumulated values with the list of cursors requested. -/
def getPullRequestChanges (pages : List GitlabChanges) :
    Option (List GitlabChangesValue × List Nat) :=
  getPullRequestChangesGo pages [] 0 []

/-- The cursor sequence the loop requests, starting from `cursor`: the first
request uses `cursor`; each later request uses the previous page's
`nextPageStart`; the sequence stops at the first page with null
`nextPageStart`. -/
def cursorTrace : List GitlabChanges → Nat → List Nat
  | [], _ => []
  | page :: restPages, cursor =>
    cursor ::
      (match page.nextPageStart with
       | none => []
       | some n => cursorTrace restPages n)

def pageOne : GitlabChanges :=
  ⟨[⟨ChangeType.ADD, ⟨"a"⟩, ⟨""⟩⟩, ⟨ChangeType.ADD, ⟨"b"⟩, ⟨""⟩⟩], some 1⟩

def pageTwo : GitlabChanges := ⟨[⟨ChangeType.ADD, ⟨"c"⟩, ⟨""⟩⟩], none⟩

/-- Civil date (year, month, day) from days since the Unix epoch (1970-01-01),
the standard Gregorian days-to-civil computation, valid on the non-negative
epoch range used here. This embeds the calendar arithmetic behind
`new Date(ms)`. -/
def civilFromDays (days : Nat) : Nat × Nat × Nat :=
  let z := days + 719468
  let era := z / 146097
  let doe := z % 146097
  let yoe := (doe - doe / 1460 + doe / 36524 - doe / 146096) / 365
  let y := yoe + era * 400
  let doy := doe - (365 * yoe + yoe / 4 - yoe / 100)
  let mp := (5 * doy + 2) / 153
  let d := doy - (153 * mp + 2) / 5 + 1
  let m := if mp < 10 then mp + 3 else mp - 9
  (if m ≤ 2 then y + 1 else y, m, d)

def padTwo (n : Nat) : String :=
  if n < 10 then "0" ++ toString n else toString n

def padThree (n : Nat) : String :=
  if n < 10 then "00" ++ toString n
  else if n < 100 then "0" ++ toString n
  else toString n

def padFour (n : Nat) : String :=
  if n < 10 then "000" ++ toString n
  else if n < 100 then "00" ++ toString n
  else if n < 1000 then "0" ++ toString n
  else toString n

/-- `new Date(ms).toISOString()` for a non-negative epoch-millisecond value:
`YYYY-MM-DDTHH:MM:SS.mmmZ` in UTC. -/
def toISOString (ms : Nat) : String :=
  let milli := ms % 1000
  let totalSeconds := ms / 1000
  let second := totalSeconds % 60
  let minute := totalSeconds / 60 % 60
  let hour := totalSeconds / 3600 % 24
  let days := totalSeconds / 86400
  match civilFromDays days with
  | (y, m, d) =>
    padFour y ++ "-" ++ padTwo m ++ "-" ++ padTwo d ++ "T" ++ padTwo hour ++ ":" ++
      padTwo minute ++ ":" ++ padTwo second ++ "." ++ padThree milli ++ "Z"

/-- Platform commit author/committer block (`GitlabCommit["author"]`). -/
structure GitlabCommitAuthor where
  name : String
  emailAddress : String
  deriving Repr, DecidableEq

/-- A parent reference inside a platform commit. -/
structure GitlabCommitParent where
  id : String
  deriving Repr, DecidableEq

/-- A platform commit record (`GitlabCommit`): epoch-millisecond timestamps,
optional committer. -/
structure GitlabCommit where
  id : String
  parents : List GitlabCommitParent
  author : GitlabCommitAuthor
  authorTimestamp : Nat
  committer : Option GitlabCommitAuthor
  committerTimestamp : Nat
  message : String
  deriving Repr, DecidableEq

/-- Repository metadata (`RepoMetaData`). -/
structure RepoMetaData where
  repoSlug : String
  pullRequestID : String
  deriving Repr, DecidableEq

/-- `bitBucketServerCommitToGitCommit(bbsCommit, repoMetadata, host)`: the
commit normalizer. `tree` is always null; an absent committer falls back to
the author fields, dated by the author timestamp. -/
def bitBucketServerCommitToGitCommit (bbsCommit : GitlabCommit)
    (repoMetadata : RepoMetaData) (host : String) : GitCommit :=
  let url := host ++ "/" ++ repoMetadata.repoSlug ++ "/commits/" ++ bbsCommit.id
  { sha := bbsCommit.id
    parents := bbsCommit.parents.map (fun p => p.id)
    author := { email := bbsCommit.author.emailAddress
                name := bbsCommit.author.name
                date := toISOString bbsCommit.authorTimestamp }
    committer :=
      match bbsCommit.committer with
      | some committer =>
        { email := committer.emailAddress
          name := committer.name
          date := toISOString bbsCommit.committerTimestamp }
      | none =>
        { email := bbsCommit.author.emailAddress
          name := bbsCommit.author.name
          date := toISOString bbsCommit.authorTimestamp }
    message := bbsCommit.message
    tree := none
    url := url }

def fallbackCommit : GitlabCommit :=
  ⟨"deadbeef", [⟨"cafe"⟩], ⟨"Ann Author", "ann@example.com"⟩, 1700000000000, none, 0, "msg"⟩

/-- The `type` tag of a diff hunk segment; tags outside the three the source's
lookup table knows are `other`. -/
inductive SegmentType where
  | ADDED
  | CONTEXT
  | REMOVED
  | other (tag : String)
  deriving Repr, DecidableEq

/-- One line inside a hunk segment. -/
structure GitlabDiffLine where
  line : String
  source : Option Nat
  destination : Option Nat
  deriving Repr, DecidableEq

/-- One typed segment of a hunk. -/
structure GitlabSegment where
  type : SegmentType
  lines : List GitlabDiffLine
  deriving Repr, DecidableEq

/-- One hunk of a platform diff. -/
structure GitlabHunk where
  segments : List GitlabSegment
  deriving Repr, DecidableEq

/-- One per-file platform diff entry (`GitlabDiff`); `source`, `destination`
and `hunks` may each be absent. -/
structure GitlabDiff where
  source : Option GitlabPath
  destination : Option GitlabPath
  hunks : Option (List GitlabHunk)
  deriving Repr, DecidableEq

/-- The `segmentValues` lookup object
`{ ADDED: "add", CONTEXT: "normal", REMOVED: "del" }`: indexing it with a key
outside the table yields `undefined` (`none`), exactly as in the source. -/
def segmentValues : SegmentType → Option String
  | SegmentType.ADDED => some "add"
  | SegmentType.CONTEXT => some "normal"
  | SegmentType.REMOVED => some "del"
  | SegmentType.other _ => none

/-- A flattened change entry of the canonical structured diff. The source
casts the lookup result to `"add" | "del" | "normal"`, but at runtime an
unknown segment type makes it `undefined`, hence `Option String` here. -/
structure StructuredChange where
  type : Option String
  content : String
  sourceLine : Option Nat
  destinationLine : Option Nat
  deriving Repr, DecidableEq

/-- A chunk of the canonical structured diff. -/
structure StructuredChunk where
  changes : List StructuredChange
  deriving Repr, DecidableEq

/-- A per-file canonical structured diff entry. -/
structure StructuredDiffEntry where
  «from» : Option String
  «to» : Option String
  chunks : Option (List StructuredChunk)
  deriving Repr, DecidableEq

/-- `bitBucketServerDiffToGitStructuredDiff(diffs)`: element-wise mapping;
`diff.source && diff.source.toString` is `Option.map`; each hunk's segments
are expanded line-by-line and concatenated with
`.reduce((a, b) => a.concat(b), [])`, a left fold of append from `[]`. -/
def structuredDiffEntryOf (diff : GitlabDiff) : StructuredDiffEntry :=
  { «from» := diff.source.map (fun p => p.toString)
    «to» := diff.destination.map (fun p => p.toString)
    chunks := diff.hunks.map (fun hunks => hunks.map (fun hunk =>
      { changes := (hunk.segments.map (fun segment =>
          segment.lines.map (fun line =>
            ({ type := segmentValues segment.type
               content := line.line
               sourceLine := line.source
               destinationLine := line.destination } : StructuredChange)))).foldl
          (fun a b => a ++ b) [] })) }

def bitBucketServerDiffToGitStructuredDiff (diffs : List GitlabDiff) :
    List StructuredDiffEntry :=
  diffs.map structuredDiffEntryOf

/-- Modelled from the spec: the segment-type table ADDED→"add",
CONTEXT→"normal", REMOVED→"del" (total on the three known tags; the `other`
branch is never reached under the known-types hypothesis). -/
def specSegmentTag : SegmentType → String
  | SegmentType.ADDED => "add"
  | SegmentType.CONTEXT => "normal"
  | SegmentType.REMOVED => "del"
  | SegmentType.other tag => tag

/-- Modelled from the spec: one segment's lines expanded one-to-one, in
original order, into change entries tagged by the segment's type. -/
def specExpandSegment (segment : GitlabSegment) : List StructuredChange :=
  segment.lines.map fun line =>
    { type := some (specSegmentTag segment.type)
      content := line.line
      sourceLine := line.source
      destinationLine := line.destination }

/-- Modelled from the spec: a hunk's changes are the concatenation of its
segments' expansions in segment order (never interleaved). -/
def specHunkChanges (hunk : GitlabHunk) : List StructuredChange :=
  (hunk.segments.map specExpandSegment).flatten

def addedRemovedDiff : GitlabDiff :=
  ⟨some ⟨"f"⟩, some ⟨"f"⟩,
   some [⟨[⟨SegmentType.ADDED, [⟨"x", none, some 5⟩]⟩,
           ⟨SegmentType.REMOVED, [⟨"y", some 3, none⟩]⟩]⟩]⟩

def unknownSegmentDiff : GitlabDiff :=
  ⟨some ⟨"f"⟩, some ⟨"f"⟩,
   some [⟨[⟨SegmentType.other "WHATEVER", [⟨"x", none, some 1⟩]⟩]⟩]⟩

/-- PR metadata (`GitlabPRDSL`); the client never inspects it, only stores and
returns it, so an opaque numeric payload suffices. -/
structure GitlabPRDSL where
  payload : Nat
  deriving Repr, DecidableEq

/-- The mutable per-instance state of `GitlabAPI` relevant to the claims: the
`private pr` field, initially `undefined`. -/
structure GitlabAPIState where
  pr : Option GitlabPRDSL
  deriving Repr, DecidableEq

/-- `getPullRequestInfo`, state-passing style. `response` is the deserialized
PR metadata the network would produce for this call. Returns the value handed
to the caller, the successor state, and the number of network fetches this
call performed (0 or 1): `if (this.pr) return this.pr` short-circuits,
otherwise the fetch runs and `this.pr = prDSL` stores the result. -/
def getPullRequestInfo (response : GitlabPRDSL) (s : GitlabAPIState) :
    GitlabPRDSL × GitlabAPIState × Nat :=
  match s.pr with
  | some p => (p, s, 0)
  | none => (response, { pr := some response }, 1)

/-- A sequence of `getPullRequestInfo` calls on one instance, each with the
response the network would give that call; returns the values the calls
hand back, the final state, and the total fetch count. -/
def runGetPullRequestInfoCalls (responses : List GitlabPRDSL)
    (s : GitlabAPIState) : List GitlabPRDSL × GitlabAPIState × Nat :=
  match responses with
  | [] => ([], s, 0)
  | r :: rest =>
    let step := getPullRequestInfo r s
    let restRun := runGetPullRequestInfoCalls rest step.2.1
    (step.1 :: restRun.1, restRun.2.1, step.2.2 + restRun.2.2)

/-- An HTTP response as the client sees it: status, status text, body. -/
structure HttpResponse where
  status : Nat
  statusText : String
  body : String
  deriving Repr, DecidableEq

/-- `res.ok` of the fetch API: status in the 2xx range. -/
def HttpResponse.isOk (res : HttpResponse) : Bool :=
  200 ≤ res.status && res.status < 300

/-- `throwIfNotOk(res)`: throws `"{status} - {statusText}"`, with the
credential-configuration hint appended for 4xx statuses; returns unit on ok
responses. -/
def throwIfNotOk (res : HttpResponse) : Except String Unit :=
  if res.isOk then Except.ok ()
  else
    let message := toString res.status ++ " - " ++ res.statusText
    let message :=
      if 400 ≤ res.status && res.status < 500 then
        message ++
          " (Have you set DANGER_GITLAB_USERNAME and DANGER_GITLAB_PASSWORD or DANGER_GITLAB_TOKEN?)"
      else message
    Except.error message

/-- `getFileContents` applied to the response of its single GET: status 404
returns the empty string before `throwIfNotOk` runs; otherwise `throwIfNotOk`
may throw; on ok responses the body text is returned. -/
def getFileContents (res : HttpResponse) : Except String String :=
  if res.status = 404 then Except.ok ""
  else
    match throwIfNotOk res with
    | Except.error e => Except.error e
    | Except.ok _ => Except.ok res.body

theorem changesGo_ok (changes : List GitlabChangesValue) :
    ∀ git : GitJSONDSL, (∀ v ∈ changes, knownChangeType v.type = true) →
    bitBucketServerChangesToGitJSONDSLGo git changes =
      Except.ok { modified_files := git.modified_files ++ contributions modifiedContribution changes,
                  created_files := git.created_files ++ contributions createdContribution changes,
                  deleted_files := git.deleted_files ++ contributions deletedContribution changes,
                  commits := git.commits } := by
  induction changes with
  | nil => intro git _; simp [bitBucketServerChangesToGitJSONDSLGo, contributions]
  | cons v rest ih =>
    intro git h
    have hv : knownChangeType v.type = true := h v (List.mem_cons_self _ _)
    have hrest : ∀ w ∈ rest, knownChangeType w.type = true :=
      fun w hw => h w (List.mem_cons_of_mem _ hw)
    cases ht : v.type with
    | ADD =>
      simp [bitBucketServerChangesToGitJSONDSLGo, ht, ih _ hrest, contributions,
        createdContribution, modifiedContribution, deletedContribution]
    | MODIFY =>
      simp [bitBucketServerChangesToGitJSONDSLGo, ht, ih _ hrest, contributions,
        createdContribution, modifiedContribution, deletedContribution]
    | MOVE =>
      simp [bitBucketServerChangesToGitJSONDSLGo, ht, ih _ hrest, contributions,
        createdContribution, modifiedContribution, deletedContribution]
    | DELETE =>
      simp [bitBucketServerChangesToGitJSONDSLGo, ht, ih _ hrest, contributions,
        createdContribution, modifiedContribution, deletedContribution]
    | other tag =>
      rw [ht] at hv
      simp [knownChangeType] at hv

example :
    bitBucketServerChangesToGitJSONDSL
      [⟨ChangeType.ADD, ⟨"a"⟩, ⟨""⟩⟩, ⟨ChangeType.MODIFY, ⟨"b"⟩, ⟨""⟩⟩,
       ⟨ChangeType.DELETE, ⟨"c"⟩, ⟨""⟩⟩] [] =
    Except.ok { modified_files := ["b"], created_files := ["a"],
                deleted_files := ["c"], commits := [] } := rfl

theorem changesGo_error (changes : List GitlabChangesValue) :
    ∀ git : GitJSONDSL, (∃ v ∈ changes, knownChangeType v.type = false) →
    bitBucketServerChangesToGitJSONDSLGo git changes =
      Except.error "Unhandled change type" := by
  induction changes with
  | nil => intro git h; simp at h
  | cons v rest ih =>
    intro git h
    rcases h with ⟨w, hw, hwk⟩
    cases ht : v.type with
    | ADD =>
      have hwrest : w ∈ rest := by
        rcases List.mem_cons.mp hw with hweq | hwrest
        · rw [hweq, ht] at hwk; simp [knownChangeType] at hwk
        · exact hwrest
      simp only [bitBucketServerChangesToGitJSONDSLGo, ht]
      exact ih _ ⟨w, hwrest, hwk⟩
    | MODIFY =>
      have hwrest : w ∈ rest := by
        rcases List.mem_cons.mp hw with hweq | hwrest
        · rw [hweq, ht] at hwk; simp [knownChangeType] at hwk
        · exact hwrest
      simp only [bitBucketServerChangesToGitJSONDSLGo, ht]
      exact ih _ ⟨w, hwrest, hwk⟩
    | MOVE =>
      have hwrest : w ∈ rest := by
        rcases List.mem_cons.mp hw with hweq | hwrest
        · rw [hweq, ht] at hwk; simp [knownChangeType] at hwk
        · exact hwrest
      simp only [bitBucketServerChangesToGitJSONDSLGo, ht]
      exact ih _ ⟨w, hwrest, hwk⟩
    | DELETE =>
      have hwrest : w ∈ rest := by
        rcases List.mem_cons.mp hw with hweq | hwrest
        · rw [hweq, ht] at hwk; simp [knownChangeType] at hwk
        · exact hwrest
      simp only [bitBucketServerChangesToGitJSONDSLGo, ht]
      exact ih _ ⟨w, hwrest, hwk⟩
    | other tag => simp [bitBucketServerChangesToGitJSONDSLGo, ht]

theorem changesGo_error_unfold {v : GitlabChangesValue} (git : GitJSONDSL)
    (rest : List GitlabChangesValue) (ht : knownChangeType v.type = false) :
    bitBucketServerChangesToGitJSONDSLGo git (v :: rest) =
      Except.error "Unhandled change type" := by
  cases h : v.type with
  | other tag => simp [bitBucketServerChangesToGitJSONDSLGo, h]
  | ADD => rw [h] at ht; simp [knownChangeType] at ht
  | MODIFY => rw [h] at ht; simp [knownChangeType] at ht
  | MOVE => rw [h] at ht; simp [knownChangeType] at ht
  | DELETE => rw [h] at ht; simp [knownChangeType] at ht

theorem contributions_created_eq_filter (changes : List GitlabChangesValue)
    (h : ∀ v ∈ changes, v.type = ChangeType.ADD ∨ v.type = ChangeType.MODIFY ∨
      v.type = ChangeType.DELETE) :
    contributions createdContribution changes =
      (changes.filter (fun v => v.type == ChangeType.ADD)).map
        (fun v => v.path.toString) := by
  induction changes with
  | nil => simp [contributions]
  | cons v rest ih =>
    have hrest := fun w hw => h w (List.mem_cons_of_mem _ hw)
    rcases h v (List.mem_cons_self _ _) with ht | ht | ht <;>
      simp +decide [contributions, createdContribution, ht, ih hrest, List.filter_cons]

theorem contributions_modified_eq_filter (changes : List GitlabChangesValue)
    (h : ∀ v ∈ changes, v.type = ChangeType.ADD ∨ v.type = ChangeType.MODIFY ∨
      v.type = ChangeType.DELETE) :
    contributions modifiedContribution changes =
      (changes.filter (fun v => v.type == ChangeType.MODIFY)).map
        (fun v => v.path.toString) := by
  induction changes with
  | nil => simp [contributions]
  | cons v rest ih =>
    have hrest := fun w hw => h w (List.mem_cons_of_mem _ hw)
    rcases h v (List.mem_cons_self _ _) with ht | ht | ht <;>
      simp +decide [contributions, modifiedContribution, ht, ih hrest, List.filter_cons]

theorem contributions_deleted_eq_filter (changes : List GitlabChangesValue)
    (h : ∀ v ∈ changes, v.type = ChangeType.ADD ∨ v.type = ChangeType.MODIFY ∨
      v.type = ChangeType.DELETE) :
    contributions deletedContribution changes =
      (changes.filter (fun v => v.type == ChangeType.DELETE)).map
        (fun v => v.path.toString) := by
  induction changes with
  | nil => simp [contributions]
  | cons v rest ih =>
    have hrest := fun w hw => h w (List.mem_cons_of_mem _ hw)
    rcases h v (List.mem_cons_self _ _) with ht | ht | ht <;>
      simp +decide [contributions, deletedContribution, ht, ih hrest, List.filter_cons]

/-- C1: for records whose types are all in {ADD, MODIFY, DELETE}, the
change-list normalizer places each record's path in exactly one output list
(ADD records' paths are exactly `created_files`, MODIFY records' paths exactly
`modified_files`, DELETE records' paths exactly `deleted_files`), preserving
the records' arrival order in each list; the fold starts from the empty
accumulator and succeeds. -/
theorem changes_normalizer_buckets_in_order (changes : List GitlabChangesValue)
    (commits : List GitCommit)
    (h : ∀ v ∈ changes, v.type = ChangeType.ADD ∨ v.type = ChangeType.MODIFY ∨
      v.type = ChangeType.DELETE) :
    bitBucketServerChangesToGitJSONDSL changes commits =
      Except.ok
        { modified_files := (changes.filter (fun v => v.type == ChangeType.MODIFY)).map
            (fun v => v.path.toString),
          created_files := (changes.filter (fun v => v.type == ChangeType.ADD)).map
            (fun v => v.path.toString),
          deleted_files := (changes.filter (fun v => v.type == ChangeType.DELETE)).map
            (fun v => v.path.toString),
          commits := commits } := by
  have hknown : ∀ v ∈ changes, knownChangeType v.type = true := by
    intro v hv
    rcases h v hv with ht | ht | ht <;> simp [knownChangeType, ht]
  rw [bitBucketServerChangesToGitJSONDSL, changesGo_ok changes _ hknown,
    contributions_created_eq_filter changes h, contributions_modified_eq_filter changes h,
    contributions_deleted_eq_filter changes h]
  simp

/-- C1 witness at a concrete record sequence. -/
theorem changes_normalizer_buckets_in_order_witness :
    bitBucketServerChangesToGitJSONDSL
      [⟨ChangeType.ADD, ⟨"a"⟩, ⟨""⟩⟩, ⟨ChangeType.MODIFY, ⟨"b"⟩, ⟨""⟩⟩,
       ⟨ChangeType.DELETE, ⟨"c"⟩, ⟨""⟩⟩, ⟨ChangeType.ADD, ⟨"d"⟩, ⟨""⟩⟩] [] =
    Except.ok { modified_files := ["b"], created_files := ["a", "d"],
                deleted_files := ["c"], commits := [] } := by
  have := changes_normalizer_buckets_in_order
    [⟨ChangeType.ADD, ⟨"a"⟩, ⟨""⟩⟩, ⟨ChangeType.MODIFY, ⟨"b"⟩, ⟨""⟩⟩,
     ⟨ChangeType.DELETE, ⟨"c"⟩, ⟨""⟩⟩, ⟨ChangeType.ADD, ⟨"d"⟩, ⟨""⟩⟩] [] (by decide)
  simpa using this

theorem mem_contributions_of_mem (f : GitlabChangesValue → List String) {v : GitlabChangesValue}
    {changes : List GitlabChangesValue} (hv : v ∈ changes) {x : String}
    (hx : x ∈ f v) : x ∈ contributions f changes := by
  induction changes with
  | nil => simp at hv
  | cons w rest ih =>
    rcases List.mem_cons.mp hv with hveq | hvrest
    · subst hveq; simp [contributions]; exact Or.inl hx
    · simp [contributions]; exact Or.inr (ih hvrest)

theorem ok_implies_known {changes : List GitlabChangesValue} {commits : List GitCommit}
    {g : GitJSONDSL} (h : bitBucketServerChangesToGitJSONDSL changes commits = Except.ok g) :
    ∀ v ∈ changes, knownChangeType v.type = true := by
  intro v hv
  by_contra hk
  rw [Bool.not_eq_true] at hk
  rw [bitBucketServerChangesToGitJSONDSL, changesGo_error changes _ ⟨v, hv, hk⟩] at h
  exact Except.noConfusion h

/-- C2: whenever the change-list normalizer succeeds on a record sequence
containing a MOVE record, the MOVE's destination path is in `created_files`,
its source path is in `deleted_files`, and `modified_files` consists only of
the per-record MODIFY contributions, the MOVE record contributing the empty
list to it (a move is a delete-then-create, never a separate rename bucket). -/
theorem move_contributes_create_and_delete (changes : List GitlabChangesValue)
    (commits : List GitCommit) (g : GitJSONDSL) (v : GitlabChangesValue)
    (hv : v ∈ changes) (ht : v.type = ChangeType.MOVE)
    (h : bitBucketServerChangesToGitJSONDSL changes commits = Except.ok g) :
    v.path.toString ∈ g.created_files ∧ v.srcPath.toString ∈ g.deleted_files ∧
    g.modified_files = contributions modifiedContribution changes ∧
    modifiedContribution v = [] := by
  have hknown := ok_implies_known h
  rw [bitBucketServerChangesToGitJSONDSL, changesGo_ok changes _ hknown] at h
  have hg := (Except.ok.injEq _ _).mp h
  subst hg
  refine ⟨?_, ?_, by simp, by simp [modifiedContribution, ht]⟩
  · exact mem_contributions_of_mem createdContribution hv
      (by simp [createdContribution, ht])
  · exact mem_contributions_of_mem deletedContribution hv
      (by simp [deletedContribution, ht])

/-- C2 witness at a concrete record sequence containing one MOVE. -/
theorem move_contributes_create_and_delete_witness :
    moveWitnessRecord.path.toString ∈ moveWitnessGit.created_files ∧
    moveWitnessRecord.srcPath.toString ∈ moveWitnessGit.deleted_files ∧
    moveWitnessGit.modified_files = contributions modifiedContribution moveWitnessChanges ∧
    modifiedContribution moveWitnessRecord = [] :=
  move_contributes_create_and_delete moveWitnessChanges [] moveWitnessGit moveWitnessRecord
    (List.mem_cons_self _ _) rfl rfl

/-- C3: a record sequence containing a record whose type is outside
{ADD, MODIFY, MOVE, DELETE} makes the change-list normalizer fail with the
"Unhandled change type" error; no partial change set is returned (the whole
result is the error). -/
theorem unknown_change_type_fails (changes : List GitlabChangesValue)
    (commits : List GitCommit)
    (h : ∃ v ∈ changes, v.type ≠ ChangeType.ADD ∧ v.type ≠ ChangeType.MODIFY ∧
      v.type ≠ ChangeType.MOVE ∧ v.type ≠ ChangeType.DELETE) :
    bitBucketServerChangesToGitJSONDSL changes commits =
      Except.error "Unhandled change type" := by
  rcases h with ⟨v, hv, h1, h2, h3, h4⟩
  have hk : knownChangeType v.type = false := by
    cases ht : v.type with
    | ADD => exact absurd ht h1
    | MODIFY => exact absurd ht h2
    | MOVE => exact absurd ht h3
    | DELETE => exact absurd ht h4
    | other tag => simp [knownChangeType]
  exact changesGo_error changes _ ⟨v, hv, hk⟩

/-- C3 witness: a "RENAME"-typed record among otherwise well-formed records
aborts the fold with the error. -/
theorem unknown_change_type_fails_witness :
    bitBucketServerChangesToGitJSONDSL
      [⟨ChangeType.ADD, ⟨"a"⟩, ⟨""⟩⟩, ⟨ChangeType.other "RENAME", ⟨"r"⟩, ⟨""⟩⟩,
       ⟨ChangeType.MODIFY, ⟨"b"⟩, ⟨""⟩⟩] [] =
      Except.error "Unhandled change type" :=
  unknown_change_type_fails _ []
    ⟨⟨ChangeType.other "RENAME", ⟨"r"⟩, ⟨""⟩⟩, by simp, by simp, by simp, by simp, by simp⟩

theorem getPullRequestChangesGo_spec (init : List GitlabChanges)
    (lastPage : GitlabChanges) (hlast : lastPage.nextPageStart = none) :
    ∀ (values : List GitlabChangesValue) (cursor : Nat) (requests : List Nat),
    (∀ p ∈ init, p.nextPageStart ≠ none) →
    getPullRequestChangesGo (init ++ [lastPage]) values cursor requests =
      some (values ++ ((init ++ [lastPage]).map (fun p => p.values)).flatten,
            requests ++ cursorTrace (init ++ [lastPage]) cursor) := by
  induction init with
  | nil =>
    intro values cursor requests _
    simp [getPullRequestChangesGo, cursorTrace, hlast]
  | cons p restInit ih =>
    intro values cursor requests h
    have hp : p.nextPageStart ≠ none := h p (List.mem_cons_self _ _)
    have hrest : ∀ q ∈ restInit, q.nextPageStart ≠ none :=
      fun q hq => h q (List.mem_cons_of_mem _ hq)
    cases hps : p.nextPageStart with
    | none => exact absurd hps hp
    | some n =>
      simp only [List.cons_append, getPullRequestChangesGo, hps, cursorTrace,
        List.append_eq]
      rw [ih (values ++ p.values) n (requests ++ [cursor]) hrest]
      simp

/-- C4: for a well-formed successful response trace (every page before the
final one carries a non-null `nextPageStart`, the final one carries null),
`getPullRequestChanges` returns the concatenation of all pages' `values` in
page order (no deduplication, no reordering), issuing one request per page
with cursors given by `cursorTrace` — the first request at cursor 0 and each
subsequent request at the previous page's `nextPageStart`. -/
theorem pagination_accumulates_in_order (init : List GitlabChanges)
    (lastPage : GitlabChanges)
    (hinit : ∀ p ∈ init, p.nextPageStart ≠ none)
    (hlast : lastPage.nextPageStart = none) :
    getPullRequestChanges (init ++ [lastPage]) =
      some (((init ++ [lastPage]).map (fun p => p.values)).flatten,
            cursorTrace (init ++ [lastPage]) 0) ∧
    (cursorTrace (init ++ [lastPage]) 0).length = (init ++ [lastPage]).length := by
  constructor
  · rw [getPullRequestChanges, getPullRequestChangesGo_spec init lastPage hlast [] 0 [] hinit]
    simp
  · have hgen : ∀ (pages : List GitlabChanges) (cursor : Nat),
        (∃ pre lst, pages = pre ++ [lst] ∧ (∀ p ∈ pre, p.nextPageStart ≠ none) ∧
          lst.nextPageStart = none) →
        (cursorTrace pages cursor).length = pages.length := by
      intro pages
      induction pages with
      | nil =>
        intro cursor hshape
        rcases hshape with ⟨pre, lst, habs, -, -⟩
        exact absurd habs (by simp)
      | cons p rest ih =>
        intro cursor hshape
        rcases hshape with ⟨pre, lst, hshape, hpre, hlst⟩
        cases pre with
        | nil =>
          simp at hshape
          rcases hshape with ⟨hp, hrest⟩
          subst hp; subst hrest
          simp [cursorTrace, hlst]
        | cons q qs =>
          simp at hshape
          rcases hshape with ⟨hp, hrest⟩
          subst hp
          have hq : p.nextPageStart ≠ none := hpre p (List.mem_cons_self _ _)
          cases hps : p.nextPageStart with
          | none => exact absurd hps hq
          | some n =>
            simp [cursorTrace, hps]
            rw [ih n ⟨qs, lst, hrest, fun r hr => hpre r (List.mem_cons_of_mem _ hr), hlst⟩]
    exact hgen (init ++ [lastPage]) 0
      ⟨init, lastPage, rfl, hinit, hlast⟩

/-- C4 witness: two pages `[{values:[a,b], nextPageStart:1}, {values:[c],
nextPageStart:null}]` give back `[a,b,c]` with exactly the two requests at
cursors 0 and 1. -/
theorem pagination_accumulates_in_order_witness :
    getPullRequestChanges [pageOne, pageTwo] =
      some ([⟨ChangeType.ADD, ⟨"a"⟩, ⟨""⟩⟩, ⟨ChangeType.ADD, ⟨"b"⟩, ⟨""⟩⟩,
             ⟨ChangeType.ADD, ⟨"c"⟩, ⟨""⟩⟩], [0, 1]) ∧
    (cursorTrace [pageOne, pageTwo] 0).length = 2 := by
  have h := pagination_accumulates_in_order [pageOne] pageTwo
    (by intro p hp; simp at hp; subst hp; simp [pageOne]) rfl
  constructor
  · rw [show [pageOne, pageTwo] = [pageOne] ++ [pageTwo] from rfl, h.1]
    simp [pageOne, pageTwo, cursorTrace]
  · rw [show [pageOne, pageTwo] = [pageOne] ++ [pageTwo] from rfl, h.2]
    rfl

example : toISOString 0 = "1970-01-01T00:00:00.000Z" := by decide

example : toISOString 1583020800000 = "2020-03-01T00:00:00.000Z" := by decide

example : toISOString 1700000000000 = "2023-11-14T22:13:20.000Z" := by decide

/-- C6: when the platform commit record has no committer, the canonical
commit's committer block equals its author block, and both dates are the
ISO-8601 rendering of the record's epoch-millisecond author timestamp. -/
theorem missing_committer_falls_back_to_author (bbsCommit : GitlabCommit)
    (repoMetadata : RepoMetaData) (host : String)
    (h : bbsCommit.committer = none) :
    (bitBucketServerCommitToGitCommit bbsCommit repoMetadata host).committer =
      (bitBucketServerCommitToGitCommit bbsCommit repoMetadata host).author ∧
    (bitBucketServerCommitToGitCommit bbsCommit repoMetadata host).author.date =
      toISOString bbsCommit.authorTimestamp ∧
    (bitBucketServerCommitToGitCommit bbsCommit repoMetadata host).committer.date =
      toISOString bbsCommit.authorTimestamp := by
  simp [bitBucketServerCommitToGitCommit, h]

/-- C6 witness: the record with author timestamp 1700000000000 and no
committer yields committer = author, dated "2023-11-14T22:13:20.000Z". -/
theorem missing_committer_falls_back_to_author_witness :
    (bitBucketServerCommitToGitCommit fallbackCommit ⟨"slug", "1"⟩ "https://host").committer =
      (bitBucketServerCommitToGitCommit fallbackCommit ⟨"slug", "1"⟩ "https://host").author ∧
    (bitBucketServerCommitToGitCommit fallbackCommit ⟨"slug", "1"⟩ "https://host").author.date =
      "2023-11-14T22:13:20.000Z" := by
  have h := missing_committer_falls_back_to_author fallbackCommit ⟨"slug", "1"⟩ "https://host" rfl
  refine ⟨h.1, ?_⟩
  rw [h.2.1]
  decide

theorem foldl_append_eq_flatten {α : Type} (l : List (List α)) :
    ∀ a : List α, l.foldl (fun x y => x ++ y) a = a ++ l.flatten := by
  induction l with
  | nil => intro a; simp
  | cons x xs ih => intro a; simp [List.foldl_cons, ih]

theorem known_segmentValues {t : SegmentType}
    (h : t = SegmentType.ADDED ∨ t = SegmentType.CONTEXT ∨ t = SegmentType.REMOVED) :
    segmentValues t = some (specSegmentTag t) := by
  rcases h with h | h | h <;> simp [h, segmentValues, specSegmentTag]

/-- C5: when every segment type is in {ADDED, CONTEXT, REMOVED}, the
structured-diff normalizer expands each segment's lines one-to-one (type via
ADDED→"add", CONTEXT→"normal", REMOVED→"del"; content, sourceLine and
destinationLine copied from the line) and each hunk's changes array is the
in-order concatenation of its segments' expansions. -/
theorem structured_diff_expands_segments_in_order (diffs : List GitlabDiff)
    (h : ∀ d ∈ diffs, ∀ hs, d.hunks = some hs → ∀ hk ∈ hs, ∀ seg ∈ hk.segments,
      seg.type = SegmentType.ADDED ∨ seg.type = SegmentType.CONTEXT ∨
      seg.type = SegmentType.REMOVED) :
    bitBucketServerDiffToGitStructuredDiff diffs =
      diffs.map (fun diff =>
        { «from» := diff.source.map (fun p => p.toString)
          «to» := diff.destination.map (fun p => p.toString)
          chunks := diff.hunks.map
            (fun hunks => hunks.map (fun hunk => ⟨specHunkChanges hunk⟩)) }) := by
  rw [bitBucketServerDiffToGitStructuredDiff]
  apply List.map_congr_left
  intro d hd
  rw [structuredDiffEntryOf]
  have hfields : ∀ hunks, d.hunks = some hunks →
      (hunks.map (fun hunk =>
        ({ changes := (hunk.segments.map (fun segment =>
             segment.lines.map (fun line =>
               ({ type := segmentValues segment.type
                  content := line.line
                  sourceLine := line.source
                  destinationLine := line.destination } : StructuredChange)))).foldl
             (fun a b => a ++ b) [] } : StructuredChunk))) =
      hunks.map (fun hunk => ⟨specHunkChanges hunk⟩) := by
    intro hunks hh
    apply List.map_congr_left
    intro hk hhk
    have hchanges : (hk.segments.map (fun segment =>
        segment.lines.map (fun line =>
          ({ type := segmentValues segment.type
             content := line.line
             sourceLine := line.source
             destinationLine := line.destination } : StructuredChange)))).foldl
        (fun a b => a ++ b) [] = specHunkChanges hk := by
      rw [foldl_append_eq_flatten, List.nil_append, specHunkChanges]
      congr 1
      apply List.map_congr_left
      intro seg hseg
      rw [specExpandSegment]
      apply List.map_congr_left
      intro line _
      rw [known_segmentValues (h d hd hunks hh hk hhk seg hseg)]
    rw [hchanges]
  cases hh : d.hunks with
  | none => rfl
  | some hunks => simp only [Option.map_some']; rw [hfields hunks hh]

/-- C5 witness: one hunk with an ADDED segment line "x" (destination 5)
followed by a REMOVED segment line "y" (source 3) yields the two change
entries concatenated in segment order. -/
theorem structured_diff_expands_segments_in_order_witness :
    bitBucketServerDiffToGitStructuredDiff [addedRemovedDiff] =
      [⟨some "f", some "f",
        some [⟨[⟨some "add", "x", none, some 5⟩, ⟨some "del", "y", some 3, none⟩]⟩]⟩] := by
  have h := structured_diff_expands_segments_in_order [addedRemovedDiff] (by decide)
  rw [h]
  decide

/-- C7 evaluation at the failing input: the source does not fail on a segment
type outside {ADDED, CONTEXT, REMOVED}; it silently emits a change entry
whose `type` is `undefined` (`none`), contradicting both its own type cast
and the intended fail-fast policy. -/
theorem unknown_segment_type_passes_through_undefined :
    bitBucketServerDiffToGitStructuredDiff [unknownSegmentDiff] =
      [⟨some "f", some "f", some [⟨[⟨none, "x", none, some 1⟩]⟩]⟩] := rfl

/-- C10: an entry whose `hunks` (resp. `source`, `destination`) is absent is
still mapped to an output entry at the same index — nothing is dropped and no
failure occurs, the output having one entry per input — but its `chunks`
(resp. `from`, `to`) is the absent value, not an empty array. -/
theorem absent_hunks_give_absent_chunks (diffs : List GitlabDiff) (i : Nat)
    (d : GitlabDiff) (hd : diffs[i]? = some d) :
    (bitBucketServerDiffToGitStructuredDiff diffs).length = diffs.length ∧
    ∃ e : StructuredDiffEntry,
      (bitBucketServerDiffToGitStructuredDiff diffs)[i]? = some e ∧
      (d.hunks = none → e.chunks = none) ∧
      (d.source = none → e.«from» = none) ∧
      (d.destination = none → e.«to» = none) := by
  constructor
  · simp [bitBucketServerDiffToGitStructuredDiff]
  · refine ⟨structuredDiffEntryOf d, ?_, ?_, ?_, ?_⟩
    · rw [bitBucketServerDiffToGitStructuredDiff, List.getElem?_map, hd]; rfl
    · intro hh; simp [structuredDiffEntryOf, hh]
    · intro hs; simp [structuredDiffEntryOf, hs]
    · intro hdst; simp [structuredDiffEntryOf, hdst]

/-- C10 witness: a single diff entry with all three fields absent is kept,
with `chunks`, `from` and `to` all absent. -/
theorem absent_hunks_give_absent_chunks_witness :
    (bitBucketServerDiffToGitStructuredDiff [⟨none, none, none⟩]).length = 1 ∧
    ∃ e : StructuredDiffEntry,
      (bitBucketServerDiffToGitStructuredDiff [⟨none, none, none⟩])[0]? = some e ∧
      ((⟨none, none, none⟩ : GitlabDiff).hunks = none → e.chunks = none) ∧
      ((⟨none, none, none⟩ : GitlabDiff).source = none → e.«from» = none) ∧
      ((⟨none, none, none⟩ : GitlabDiff).destination = none → e.«to» = none) :=
  absent_hunks_give_absent_chunks [⟨none, none, none⟩] 0 ⟨none, none, none⟩ rfl

theorem runCalls_cached (responses : List GitlabPRDSL) :
    ∀ (s : GitlabAPIState) (p : GitlabPRDSL), s.pr = some p →
    runGetPullRequestInfoCalls responses s =
      (responses.map (fun _ => p), s, 0) := by
  induction responses with
  | nil => intro s p _; simp [runGetPullRequestInfoCalls]
  | cons r rest ih =>
    intro s p hs
    simp [runGetPullRequestInfoCalls, getPullRequestInfo, hs, ih s p hs]

/-- C8: on a fresh instance (`pr` unset), the first `getPullRequestInfo` call
fetches and stores the deserialized metadata; every later call returns that
stored value with no further fetch and leaves the state unchanged, so any
call sequence performs exactly one fetch and the cached value never changes. -/
theorem pr_info_fetched_at_most_once (first : GitlabPRDSL)
    (rest : List GitlabPRDSL) :
    runGetPullRequestInfoCalls (first :: rest) ⟨none⟩ =
      (first :: rest.map (fun _ => first), ⟨some first⟩, 1) ∧
    (∀ (s : GitlabAPIState) (p : GitlabPRDSL), s.pr = some p →
      getPullRequestInfo first s = (p, s, 0)) := by
  constructor
  · simp [runGetPullRequestInfoCalls, getPullRequestInfo,
      runCalls_cached rest ⟨some first⟩ first rfl]
  · intro s p hs
    simp [getPullRequestInfo, hs]

/-- C8 witness: two calls with distinct would-be responses 1 and 2 both
return 1, end in the cached state, and fetch exactly once. -/
theorem pr_info_fetched_at_most_once_witness :
    runGetPullRequestInfoCalls [⟨1⟩, ⟨2⟩] ⟨none⟩ = ([⟨1⟩, ⟨1⟩], ⟨some ⟨1⟩⟩, 1) ∧
    getPullRequestInfo ⟨1⟩ ⟨some ⟨7⟩⟩ = (⟨7⟩, ⟨some ⟨7⟩⟩, 0) := by
  have h := pr_info_fetched_at_most_once ⟨1⟩ [⟨2⟩]
  exact ⟨h.1, h.2 ⟨some ⟨7⟩⟩ ⟨7⟩ rfl⟩

/-- C9: `getFileContents` returns `""` without error on a 404 response;
on any other non-2xx response it fails with the HTTP error built from the
status and status text (plus the credential hint on 4xx); on a 2xx response
it returns the body text. -/
theorem file_contents_error_policy (res : HttpResponse) :
    (res.status = 404 → getFileContents res = Except.ok "") ∧
    (res.status ≠ 404 → res.isOk = false →
      getFileContents res =
        Except.error
          (if 400 ≤ res.status && res.status < 500 then
            toString res.status ++ " - " ++ res.statusText ++
              " (Have you set DANGER_GITLAB_USERNAME and DANGER_GITLAB_PASSWORD or DANGER_GITLAB_TOKEN?)"
          else toString res.status ++ " - " ++ res.statusText)) ∧
    (res.isOk = true → getFileContents res = Except.ok res.body) := by
  refine ⟨fun h404 => by simp [getFileContents, h404], ?_, ?_⟩
  · intro h404 hok
    simp [getFileContents, h404, throwIfNotOk, hok]
  · intro hok
    have h404 : res.status ≠ 404 := by
      intro h
      rw [HttpResponse.isOk, h] at hok
      simp at hok
    simp [getFileContents, h404, throwIfNotOk, hok]

/-- C9 witness: a 404 gives `""`, a 500 gives the plain HTTP error, a 403
gives the hint-enriched error, a 200 gives the body. -/
theorem file_contents_error_policy_witness :
    getFileContents ⟨404, "Not Found", "x"⟩ = Except.ok "" ∧
    getFileContents ⟨500, "Server Error", "y"⟩ = Except.error "500 - Server Error" ∧
    getFileContents ⟨403, "Forbidden", "z"⟩ =
      Except.error
        "403 - Forbidden (Have you set DANGER_GITLAB_USERNAME and DANGER_GITLAB_PASSWORD or DANGER_GITLAB_TOKEN?)" ∧
    getFileContents ⟨200, "OK", "body text"⟩ = Except.ok "body text" := by
  refine ⟨(file_contents_error_policy ⟨404, "Not Found", "x"⟩).1 rfl, ?_, ?_, ?_⟩
  · have h := (file_contents_error_policy ⟨500, "Server Error", "y"⟩).2.1
      (by decide) (by decide)
    simpa using h
  · have h := (file_contents_error_policy ⟨403, "Forbidden", "z"⟩).2.1
      (by decide) (by decide)
    simpa using h
  · exact (file_contents_error_policy ⟨200, "OK", "body text"⟩).2.2 (by decide)
